import Mathlib

/-!
# Verification of the Dashboards report pipeline

Shallow embedding of the core of `dashboard_generator.py`:
report parsing (`parse_and_process_report`), historical persistence
(`save_data_to_file`), monthly accumulation
(`calculate_and_update_monthly_overdue`), the paginated RetailCRM fetch
(`api_call_with_backoff`, `fetch_retailcrm_tasks`), the overdue classifier
(`process_tasks_for_chart_6`) and the artifact selector
(`find_latest_chart_files`), together with theorems settling the frozen
claims about them.
-/

namespace Dashboards

/-- Calendar date, as produced by `datetime.date`. -/
structure Date where
  year : Nat
  month : Nat
  day : Nat
deriving DecidableEq

/-- Leap-year rule used by Python's `datetime` module. -/
def isLeap (y : Nat) : Bool :=
  (y % 4 == 0 && y % 100 != 0) || y % 400 == 0

/-- Number of days in a month, as validated by the `datetime` constructors. -/
def daysInMonth (y m : Nat) : Nat :=
  if m = 2 then (if isLeap y then 29 else 28)
  else if m = 4 ∨ m = 6 ∨ m = 9 ∨ m = 11 then 30
  else 31

/-- `datetime.strptime(_, '%d.%m.%Y').date()` applied to already-captured
digit groups (two digits for day and month, four for the year): the
construction succeeds iff the fields form a real calendar date with
year ≥ `datetime.MINYEAR = 1`; otherwise `ValueError` (`none`). -/
def mkDate (d m y : Nat) : Option Date :=
  if 1 ≤ y ∧ 1 ≤ m ∧ m ≤ 12 ∧ 1 ≤ d ∧ d ≤ daysInMonth y m then
    some ⟨y, m, d⟩
  else none

/-- Numeric value of an ASCII digit. -/
def digitVal (c : Char) : Nat := c.toNat - 48

/-- Word character for the Python regex class `\w` as this program uses it:
ASCII letters, digits and underscore plus the Cyrillic letters (the report
texts are Russian; other Unicode letter ranges never occur in them). -/
def isWordChar (c : Char) : Bool :=
  c.isAlphanum || c == '_' ||
  (0x410 ≤ c.toNat && c.toNat ≤ 0x44F) || c == 'Ё' || c == 'ё'

/-- Strip an exact literal off the front of the input, as a regex literal
does. Returns the remaining input on success. -/
def stripLit : List Char → List Char → Option (List Char)
  | [], cs => some cs
  | _ :: _, [] => none
  | l :: ls, c :: cs => if c == l then stripLit ls cs else none

/-- Consume exactly `n` ASCII digits (the regex `\d{n}`), accumulating their
value; fails if a non-digit or the end of input is hit first. -/
def takeDigits : Nat → Nat → List Char → Option (Nat × List Char)
  | 0, acc, cs => some (acc, cs)
  | _ + 1, _, [] => none
  | n + 1, acc, c :: cs =>
      if c.isDigit then takeDigits n (acc * 10 + digitVal c) cs else none

/-- Maximal run of word characters (greedy `\w+`/`\w*`) and the rest. -/
def takeWordRun : List Char → List Char × List Char
  | [] => ([], [])
  | c :: cs =>
      if isWordChar c then
        let p := takeWordRun cs
        (c :: p.1, p.2)
      else ([], c :: cs)

/-- Maximal run of ASCII digits (greedy `\d+`/`\d*`) and the rest. -/
def takeDigitRun : List Char → List Char × List Char
  | [] => ([], [])
  | c :: cs =>
      if c.isDigit then
        let p := takeDigitRun cs
        (c :: p.1, p.2)
      else ([], c :: cs)

/-- Value of a digit run. -/
def digitsToNat (l : List Char) : Nat := l.foldl (fun a c => a * 10 + digitVal c) 0

/-- Try to match the header regex `Отчет ОКК (\d{2}\.\d{2}\.\d{4})` of
`parse_and_process_report` at the current position, returning the captured
(day, month, year) digit groups. -/
def matchHeaderAt (cs : List Char) : Option (Nat × Nat × Nat) :=
  match stripLit "Отчет ОКК ".toList cs with
  | none => none
  | some r1 =>
    match takeDigits 2 0 r1 with
    | none => none
    | some (d, r2) =>
      match r2 with
      | '.' :: r3 =>
        match takeDigits 2 0 r3 with
        | none => none
        | some (m, r4) =>
          match r4 with
          | '.' :: r5 =>
            match takeDigits 4 0 r5 with
            | none => none
            | some (y, _) => some (d, m, y)
          | _ => none
      | _ => none

/-- `re.search` for the date-header pattern: first match, scanning left to
right. (The pattern starts with a literal, so regex backtracking never finds
a match a plain positional scan would miss.) -/
def findHeader : List Char → Option (Nat × Nat × Nat)
  | [] => none
  | c :: cs =>
    match matchHeaderAt (c :: cs) with
    | some t => some t
    | none => findHeader cs

/-- Date-extraction step of `parse_and_process_report`: the header's date if
the header pattern matches (`none` models the `ValueError` that `strptime`
raises when the captured digits are not a real date), `date.today()` if no
header is found. -/
def reportDateOf (text : List Char) (today : Date) : Option Date :=
  match findHeader text with
  | none => some today
  | some (d, m, y) => mkDate d m y

/-- Try to match the staff-line regex
`(\w+) - поставлено (\d+)/выполнено (\d+)` at the current position.
Each greedy group is followed by a character that can never belong to it,
so maximal munch is exactly the regex's backtracking behavior. Returns the
captured (name, assigned, completed) and the rest of the input after the
match. -/
def matchStaffAt (cs : List Char) : Option ((String × Nat × Nat) × List Char) :=
  match takeWordRun cs with
  | ([], _) => none
  | (w, r1) =>
    match stripLit " - поставлено ".toList r1 with
    | none => none
    | some r2 =>
      match takeDigitRun r2 with
      | ([], _) => none
      | (ds1, r3) =>
        match stripLit "/выполнено ".toList r3 with
        | none => none
        | some r4 =>
          match takeDigitRun r4 with
          | ([], _) => none
          | (ds2, r5) => some ((⟨w⟩, digitsToNat ds1, digitsToNat ds2), r5)

/-- `re.finditer` scan for the staff-line pattern: leftmost, non-overlapping
matches; on failure advance one character, on success continue after the
match. The fuel argument (instantiated with the text length) only bounds the
recursion; every step consumes at least one character. -/
def scanStaff : Nat → List Char → List (String × Nat × Nat)
  | 0, _ => []
  | _ + 1, [] => []
  | fuel + 1, c :: cs =>
    match matchStaffAt (c :: cs) with
    | some (m, rest) => m :: scanStaff fuel rest
    | none => scanStaff fuel cs

/-- All staff-line matches of a report text, in order. -/
def extractStaff (text : List Char) : List (String × Nat × Nat) :=
  scanStaff text.length text

/-- Number of staff-line matches carrying a given employee name. -/
def occurrences (n : String) (ms : List (String × Nat × Nat)) : Nat :=
  (ms.filter (fun m => m.1 == n)).length

/-- Sum of the captured assigned counts over the matches for one name
(the `groupby(...).agg('sum')` of the `Поставлено` column). -/
def sumPosted (n : String) (ms : List (String × Nat × Nat)) : Nat :=
  (ms.filter (fun m => m.1 == n)).foldl (fun a m => a + m.2.1) 0

/-- Sum of the captured completed counts over the matches for one name. -/
def sumCompleted (n : String) (ms : List (String × Nat × Nat)) : Nat :=
  (ms.filter (fun m => m.1 == n)).foldl (fun a m => a + m.2.2) 0

/-- Value of the derived percentage column: a float that is either an
ordinary number, NaN, or +infinity (the only float values the pipeline can
produce here). -/
inductive PctVal where
  | num (q : ℚ)
  | nan
  | inf
deriving DecidableEq

/-- `.round(2)`, modelled on rationals. -/
def round2 (q : ℚ) : ℚ := (round (q * 100) : ℤ) / 100

/-- `(completed / posted * 100).round(2)` with float-division semantics:
`0/0` is NaN, `n/0` for `n > 0` is +infinity, and rounding keeps NaN and
infinity as they are. -/
def pctRaw (completed posted : Nat) : PctVal :=
  if posted = 0 then (if completed = 0 then .nan else .inf)
  else .num (round2 ((completed : ℚ) / (posted : ℚ) * 100))

/-- `.fillna(0)`: replaces NaN (and only NaN) by 0. -/
def PctVal.fillna0 : PctVal → PctVal
  | .nan => .num 0
  | v => v

/-- One row of the persisted staff series: date, employee, assigned,
completed and the derived `% Выполнения` column. -/
structure StaffRow where
  date : Date
  name : String
  posted : Nat
  completed : Nat
  pct : PctVal
deriving DecidableEq

/-- The staff dataframe built by `parse_and_process_report`:
`groupby(['Дата', 'Сотрудник']).agg(sum)` over the matches (all rows share
the report date, so the group key is the name), plus the derived percentage
column. Pandas emits the groups sorted by key; the key order is modelled by
first occurrence, which produces the same set of rows. -/
def buildStaff (ms : List (String × Nat × Nat)) (d : Date) : List StaffRow :=
  ((ms.map Prod.fst).dedup).map
    (fun n => ⟨d, n, sumPosted n ms, sumCompleted n ms,
               (pctRaw (sumCompleted n ms) (sumPosted n ms)).fillna0⟩)

/-- `parse_and_process_report`: extract the report date (raising, i.e.
`none`, if the header digits are not a real date), then build the staff
dataframe carrying that date. The metrics dataframe is not modelled: no
claim concerns it. -/
def parse_and_process_report (text : List Char) (today : Date) :
    Option (List StaffRow × Date) :=
  match reportDateOf text today with
  | none => none
  | some d => some (buildStaff (extractStaff text) d, d)

/-- `save_data_to_file`: the store is the parsed contents of the CSV file
(`none` when the file does not exist, dates already normalized by
`load_data_from_file`), the result is the file's contents after the call.
An empty dataframe is not written; otherwise rows whose date equals the
first new row's date are dropped from the history and the new rows are
appended (`pd.concat`). -/
def save_data_to_file {α : Type} (dateOf : α → Date) (df : List α)
    (store : Option (List α)) : Option (List α) :=
  match df with
  | [] => store
  | r :: _ =>
    match store with
    | some hist => some ((hist.filter (fun x => dateOf x != dateOf r)) ++ df)
    | none => some df

/-- Month key of a date. The code formats it as `strftime('%Y-%m')`; two
dates produce equal key strings exactly when their (year, month) pairs are
equal, so the key is modelled by that pair. -/
def monthKey (d : Date) : Nat × Nat := (d.year, d.month)

/-- Per-manager monthly counters (`{'posted': ..., 'completed': ...}`). -/
structure Counters where
  posted : Nat
  completed : Nat
deriving DecidableEq

/-- The persisted monthly state: month key → manager → counters, modelled
as insertion-ordered association lists (Python dicts preserve insertion
order). -/
abbrev MonthlyData := List ((Nat × Nat) × List (String × Counters))

/-- Dict lookup. -/
def getAssoc {κ β : Type} [DecidableEq κ] : List (κ × β) → κ → Option β
  | [], _ => none
  | (k', v') :: rest, k => if k' = k then some v' else getAssoc rest k

/-- Dict assignment: updates the existing entry in place, or appends a new
key at the end (Python insertion order). -/
def setAssoc {κ β : Type} [DecidableEq κ] : List (κ × β) → κ → β → List (κ × β)
  | [], k, v => [(k, v)]
  | (k', v') :: rest, k, v =>
      if k' = k then (k, v) :: rest else (k', v') :: setAssoc rest k v

/-- One row of the daily tasks dataframe produced by
`parse_uncompleted_tasks_for_chart` (columns Manager, Posted, Completed,
Overdue). -/
structure DailyRow where
  manager : String
  posted : Nat
  completed : Nat
  overdue : Nat
deriving DecidableEq

/-- Loop body of `calculate_and_update_monthly_overdue`: initialize a zeroed
counter bucket on first sight of a manager, then add the row's posted and
completed to the running totals. -/
def addDailyRow (bucket : List (String × Counters)) (row : DailyRow) :
    List (String × Counters) :=
  let cur := (getAssoc bucket row.manager).getD ⟨0, 0⟩
  setAssoc bucket row.manager ⟨cur.posted + row.posted, cur.completed + row.completed⟩

/-- `calculate_and_update_monthly_overdue`. `loaded` is the state read from
the JSON file, `reportDate` the report's date, `today` the wall clock
(`date.today()`). Returns the state the function returns together with the
contents written back to the file (`none` = no write was performed). -/
def calculate_and_update_monthly_overdue (loaded : MonthlyData)
    (dailyTasks : List DailyRow) (reportDate today : Date) :
    MonthlyData × Option MonthlyData :=
  let rk := monthKey reportDate
  let ck := monthKey today
  if rk ≠ ck then (loaded, none)
  else
    let m0 := match getAssoc loaded ck with
      | some _ => loaded
      | none => setAssoc loaded ck []
    let m1 := dailyTasks.foldl
      (fun m row =>
        match getAssoc m ck with
        | some bucket => setAssoc m ck (addDailyRow bucket row)
        | none => setAssoc m ck (addDailyRow [] row))
      m0
    (m1, some m1)

/-- `api_call_with_backoff(url, params, max_retries)`: `attempts i` is the
outcome of the `i`-th GET attempt (`none` = `RequestException`). The wrapper
returns the first successful response among attempts
`start, …, start + remaining - 1` and raises (`none`) once all attempts
failed. (The backoff sleeps do not affect the value.) -/
def api_call_with_backoff {α : Type} (attempts : Nat → Option α) :
    Nat → Nat → Option α
  | _, 0 => none
  | start, remaining + 1 =>
    match attempts start with
    | some v => some v
    | none => api_call_with_backoff attempts (start + 1) remaining

/-- Decoded body of one `/api/v5/tasks` page: the `success` flag, the
`tasks` array (tasks are modelled by opaque numeric ids) and
`pagination.totalPageCount`. -/
structure PageResponse where
  success : Bool
  tasks : List Nat
  totalPageCount : Nat
deriving DecidableEq

/-- The `while current_page <= total_page_count` loop of
`fetch_retailcrm_tasks`. `pageAttempts p i` is the outcome of the `i`-th
retry of the request for page `p`. The loop is modelled with explicit fuel
(`none` = the fuel ran out before the loop finished; the Python loop has no
such bound and simply keeps running). The result carries the returned task
list together with the number of page requests issued. -/
def fetchLoop (pageAttempts : Nat → Nat → Option PageResponse) :
    Nat → Nat → Nat → List Nat → Nat → Option (List Nat × Nat)
  | 0, _, _, _, _ => none
  | fuel + 1, page, total, acc, calls =>
    if page ≤ total then
      match api_call_with_backoff (pageAttempts page) 0 5 with
      | none => some (acc, calls + 1)
      | some r =>
        if r.success then
          let acc2 := acc ++ r.tasks
          let total2 := r.totalPageCount
          if total2 ≤ page then some (acc2, calls + 1)
          else fetchLoop pageAttempts fuel (page + 1) total2 acc2 (calls + 1)
        else some ([], calls + 1)
    else some (acc, calls)

/-- `fetch_retailcrm_tasks`: pages start at 1 with an initial reported page
count of 1. A page whose 5 retries are all exhausted raises inside
`api_call_with_backoff`; the loop catches this, prints and `break`s,
returning the tasks accumulated so far. A `success: false` body returns
`[]`. -/
def fetch_retailcrm_tasks (pageAttempts : Nat → Nat → Option PageResponse)
    (fuel : Nat) : Option (List Nat × Nat) :=
  fetchLoop pageAttempts fuel 1 1 [] 0

/-- The tasks of `d` consecutive pages `p, p + 1, …, p + d - 1`,
concatenated in page order — the contents of `all_tasks` after those pages
have been fetched. -/
def pagesFrom (resp : Nat → PageResponse) : Nat → Nat → List Nat
  | 0, _ => []
  | d + 1, p => (resp p).tasks ++ pagesFrom resp d (p + 1)

/-- A wall-clock timestamp (`datetime.datetime`), second precision. -/
structure Stamp where
  year : Nat
  month : Nat
  day : Nat
  hour : Nat
  minute : Nat
  second : Nat
deriving DecidableEq

/-- Monotone encoding of a timestamp: for timestamps whose fields are in
their calendar ranges, `key` comparisons agree with `datetime` comparisons
(the field-lexicographic order). -/
def Stamp.key (t : Stamp) : Nat :=
  ((((t.year * 13 + t.month) * 32 + t.day) * 24 + t.hour) * 60 + t.minute) * 60
    + t.second

/-- One numeric `strptime` field that CPython matches with a two-digit
alternative first and a one-digit alternative second (`%m`, `%d`, `%H`,
`%M`, `%S`): try two digits with value in `[lo, hi]`; if that alternative or
the rest of the pattern fails, backtrack to one digit with value ≥ `lo`.
`k` parses the rest of the input. -/
def fieldTwo (lo hi : Nat) (cs : List Char)
    (k : Nat → List Char → Option Stamp) : Option Stamp :=
  match cs with
  | [] => none
  | c1 :: rest1 =>
    if c1.isDigit then
      match rest1 with
      | c2 :: rest2 =>
        if c2.isDigit then
          let v := digitVal c1 * 10 + digitVal c2
          match (if lo ≤ v ∧ v ≤ hi then k v rest2 else none) with
          | some r => some r
          | none =>
            if lo ≤ digitVal c1 then k (digitVal c1) (c2 :: rest2) else none
        else
          if lo ≤ digitVal c1 then k (digitVal c1) rest1 else none
      | [] =>
        if lo ≤ digitVal c1 then k (digitVal c1) [] else none
    else none

/-- Calendar validation done by the `datetime` constructor after the
`strptime` regex has matched: year ≥ 1 and a real calendar day. -/
def validStamp (t : Stamp) : Option Stamp :=
  if 1 ≤ t.year ∧ t.day ≤ daysInMonth t.year t.month then some t else none

/-- `datetime.strptime(s, '%Y-%m-%d %H:%M')` (`withSeconds = false`) or
`datetime.strptime(s, '%Y-%m-%d %H:%M:%S')` (`withSeconds = true`):
exactly four digits of year, flexible-width fields with CPython's range
alternations, the literal separators, and nothing left over; then calendar
validation. `none` models `ValueError`. -/
def parseStamp (withSeconds : Bool) (s : String) : Option Stamp :=
  match takeDigits 4 0 s.toList with
  | none => none
  | some (y, r1) =>
    match r1 with
    | '-' :: r2 =>
      fieldTwo 1 12 r2 (fun mo r3 =>
        match r3 with
        | '-' :: r4 =>
          fieldTwo 1 31 r4 (fun d r5 =>
            match r5 with
            | ' ' :: r6 =>
              fieldTwo 0 23 r6 (fun h r7 =>
                match r7 with
                | ':' :: r8 =>
                  fieldTwo 0 59 r8 (fun mi r9 =>
                    if withSeconds then
                      match r9 with
                      | ':' :: r10 =>
                        fieldTwo 0 59 r10 (fun sec r11 =>
                          if r11.isEmpty then validStamp ⟨y, mo, d, h, mi, sec⟩
                          else none)
                      | _ => none
                    else
                      if r9.isEmpty then validStamp ⟨y, mo, d, h, mi, 0⟩
                      else none)
                | _ => none)
            | _ => none)
        | _ => none)
    | _ => none

/-- `TASK_FILTER_TEXT_LOWER`. -/
def TASK_FILTER_TEXT_LOWER : String := "связаться с клиентом"

/-- `TASK_FILTER_TEXT_UPPER`. -/
def TASK_FILTER_TEXT_UPPER : String := "Связаться с клиентом"

/-- One RetailCRM task as `process_tasks_for_chart_6` reads it from the
decoded JSON: `text` (defaulted to `''` by `.get`), `performerType`,
`performer`, the due `datetime` string, the `complete` flag (defaulted to
`False`) and the `completedAt` string. `Option` models absent JSON keys. -/
structure CrmTask where
  text : String
  performerType : Option String
  performer : Option Nat
  dueStr : Option String
  complete : Bool
  completedAtStr : Option String
deriving DecidableEq

/-- Loop body of `process_tasks_for_chart_6`, deciding whether one task is
counted overdue: the strict text filter, the performer-type and truthy
performer-id filters, the due-datetime parse (skip on absence, emptiness or
`ValueError`), then for incomplete tasks `due < now` and for completed tasks
`completedAt > due` (with a missing, empty or unparsable `completedAt`
counting as not overdue). -/
def countsOverdue (now : Stamp) (task : CrmTask) : Bool :=
  if !(task.text == TASK_FILTER_TEXT_LOWER || task.text == TASK_FILTER_TEXT_UPPER) then
    false
  else if !(task.performerType == some "user") then false
  else
    match task.performer with
    | none => false
    | some pid =>
      if pid = 0 then false
      else
        match task.dueStr with
        | none => false
        | some ds =>
          if ds.isEmpty then false
          else
            match parseStamp false ds with
            | none => false
            | some due =>
              if !task.complete then decide (due.key < now.key)
              else
                match task.completedAtStr with
                | none => false
                | some cs =>
                  if cs.isEmpty then false
                  else
                    match parseStamp true cs with
                    | none => false
                    | some ca => decide (due.key < ca.key)

/-- `defaultdict(int)` increment `m[k] += 1`, preserving insertion order. -/
def bump : List (String × Nat) → String → List (String × Nat)
  | [], k => [(k, 1)]
  | (k', v) :: rest, k =>
      if k' = k then (k', v + 1) :: rest else (k', v) :: bump rest k

/-- `get_retailcrm_manager_name` is only called for tasks that passed the
truthy-performer filter; it is modelled by an arbitrary resolver from the
performer id (network lookup, cache and placeholder formatting do not affect
the claims). -/
def managerOf (resolve : Nat → String) (task : CrmTask) : String :=
  match task.performer with
  | some pid => resolve pid
  | none => resolve 0

/-- `process_tasks_for_chart_6`: fold over the tasks, incrementing the
resolved manager's counter for each task classified overdue; the result is
the final `dict(overdue_tasks_by_manager)`. -/
def process_tasks_for_chart_6 (tasks : List CrmTask) (resolve : Nat → String)
    (now : Stamp) : List (String × Nat) :=
  tasks.foldl
    (fun m task =>
      if countsOverdue now task then bump m (managerOf resolve task) else m)
    []

/-- The two safe cases of claim C8: a completed task whose completion
timestamp is at or before its due-datetime, or an incomplete task whose
due-datetime is at or after the evaluation time. -/
def safeTask (now : Stamp) (t : CrmTask) : Prop :=
  (t.complete = true ∧ ∃ ds due cs ca,
      t.dueStr = some ds ∧ parseStamp false ds = some due ∧
      t.completedAtStr = some cs ∧ parseStamp true cs = some ca ∧
      ca.key ≤ due.key) ∨
  (t.complete = false ∧ ∃ ds due,
      t.dueStr = some ds ∧ parseStamp false ds = some due ∧
      now.key ≤ due.key)

/-- One artifact file of the working directory: its name and its
modification time (`os.path.getmtime`). -/
structure FileEntry where
  name : String
  mtime : Nat
deriving DecidableEq

/-- The six glob patterns of `find_latest_chart_files`, in declaration
order, each split as (part before `*`, part after `*`). -/
def chartPatterns : List (String × String) :=
  [("dashboard_data_1_", ".html"),
   ("dashboard_data_2_", ".html"),
   ("dashboard_data_3_", ".html"),
   ("dashboard_gs_data_4_", ".html"),
   ("dashboard_gs_data_5_", ".html"),
   ("dashboard_data_6_", ".html")]

/-- Glob matching for a `pre*suf` pattern against a file name (the names
contain no path separators, so `*` matches any character sequence). -/
def globMatch (pat : String × String) (name : String) : Bool :=
  let l := name.toList
  pat.1.toList.isPrefixOf l && pat.2.toList.isSuffixOf (l.drop pat.1.length)

/-- Comparison used to model `sorted(files, key=os.path.getmtime,
reverse=True)`: descending by modification time. -/
def mtimeGe (a b : FileEntry) : Prop := b.mtime ≤ a.mtime

instance : DecidableRel mtimeGe := fun a b => Nat.decLe b.mtime a.mtime

instance : IsTotal FileEntry mtimeGe := ⟨fun a b => le_total b.mtime a.mtime⟩

instance : IsTrans FileEntry mtimeGe :=
  ⟨fun _ _ _ h1 h2 => le_trans h2 h1⟩

/-- `sorted(glob.glob(pattern), key=getmtime, reverse=True)[0]` when at
least one file matches, `none` otherwise. Python's `sorted` is stable;
`List.insertionSort` is a stable sort. -/
def pickLatest (pat : String × String) (files : List FileEntry) :
    Option FileEntry :=
  ((files.filter (fun f => globMatch pat f.name)).insertionSort mtimeGe).head?

/-- `find_latest_chart_files`: for each of the six patterns in declaration
order, append the most recently modified matching file, skipping patterns
with no match. `files` is the directory listing. -/
def find_latest_chart_files (files : List FileEntry) : List FileEntry :=
  chartPatterns.filterMap (fun pat => pickLatest pat files)

/-! ### Concrete inputs used by witnesses and counterexamples -/

/-- A two-day staff history store. -/
def c1Hist : List (Date × Nat) := [(⟨2024, 3, 1⟩, 10), (⟨2024, 3, 2⟩, 20)]

/-- A one-row re-ingestion for the already-present second day. -/
def c1Rows : List (Date × Nat) := [(⟨2024, 3, 2⟩, 30)]

/-- A monthly state holding one February 2024 counter. -/
def c2Loaded : MonthlyData := [((2024, 2), [("Ivan", ⟨3, 1⟩)])]

/-- One per-employee daily delta row. -/
def c2Daily : List DailyRow := [⟨"Ivan", 2, 1, 1⟩]

/-- A server whose page 1 succeeds reporting 3 pages of tasks and whose
page 2 fails on every retry attempt. -/
def c3PageAttempts : Nat → Nat → Option PageResponse := fun page _ =>
  if page = 1 then some ⟨true, [100, 101], 3⟩ else none

/-- A server whose page 1 succeeds reporting 2 pages and whose page 2
fails on every retry attempt. -/
def c3wPageAttempts : Nat → Nat → Option PageResponse := fun page _ =>
  if page = 1 then some ⟨true, [7], 2⟩ else none

/-- The pathological server of claim C4: every page succeeds but reports a
total page count one larger than the page just fetched. -/
def c4PageAttempts : Nat → Nat → Option PageResponse := fun page _ =>
  some ⟨true, [], page + 1⟩

/-- A well-behaved server constantly reporting 2 pages. -/
def c4wPageAttempts : Nat → Nat → Option PageResponse := fun _ _ =>
  some ⟨true, [5], 2⟩

/-- A report text with a date header and no staff lines. -/
def c5Text : List Char := ("Отчет ОКК 01.03.2024\n2. Пропущенных - 3").toList

/-- A report text mentioning the same employee twice. -/
def c6Text : List Char :=
  ("Отчет ОКК 05.03.2024\nIvan - поставлено 3/выполнено 2\nIvan - поставлено 2/выполнено 2").toList

/-- A report text whose staff line has zero assigned but two completed
tasks. -/
def c7Text : List Char := ("Ivan - поставлено 0/выполнено 2").toList

/-- The single staff row parsed from a `поставлено 4/выполнено 2` line. -/
def c7wRow : StaffRow := ⟨⟨2024, 3, 6⟩, "Ivan", 4, 2, (pctRaw 2 4).fillna0⟩

/-- An incomplete task whose due-datetime lies in the future of `c8Now`. -/
def c8Task : CrmTask :=
  ⟨"связаться с клиентом", some "user", some 7, some "2030-01-01 10:00", false, none⟩

/-- Evaluation time for the C8 witness. -/
def c8Now : Stamp := ⟨2024, 1, 1, 0, 0, 0⟩

/-- Artifact files: two of category 1 (modified at 5 and 9) and one of
category 2 (modified at 7). -/
def c9A : FileEntry := ⟨"dashboard_data_1_a.html", 5⟩

/-- The most recent category-1 artifact. -/
def c9B : FileEntry := ⟨"dashboard_data_1_b.html", 9⟩

/-- The category-2 artifact. -/
def c9C : FileEntry := ⟨"dashboard_data_2_c.html", 7⟩

/-- The directory listing for the C9 witness. -/
def c9Files : List FileEntry := [c9A, c9B, c9C]

/-- An overdue incomplete task (due 2020, evaluated in 2024). -/
def c10Task : CrmTask :=
  ⟨"Связаться с клиентом", some "user", some 7, some "2020-01-01 10:00", false, none⟩

/-- Evaluation time for the C10 witness. -/
def c10Now : Stamp := ⟨2024, 1, 1, 0, 0, 0⟩

/-! ## Theorems -/

/-- C1: for every existing history file and every non-empty set of new rows
all sharing one date, `save_data_to_file` produces a store in which no row
with that date from the previous contents remains (any row of the result
carrying that date is one of the new rows), every new row is present, every
previously stored row with a different date is still present, and nothing
else is in the result: a full-date replace, never a field-by-field merge. -/
theorem upsert_by_date_full_replace {α : Type} (dateOf : α → Date)
    (hist rows : List α) (d : Date)
    (hne : rows ≠ []) (hd : ∀ r ∈ rows, dateOf r = d) :
    ∃ out, save_data_to_file dateOf rows (some hist) = some out ∧
      (∀ x ∈ out, dateOf x = d → x ∈ rows) ∧
      (∀ x ∈ rows, x ∈ out) ∧
      (∀ x ∈ hist, dateOf x ≠ d → x ∈ out) ∧
      (∀ x ∈ out, x ∈ rows ∨ (x ∈ hist ∧ dateOf x ≠ d)) := by
  match rows, hne with
  | r :: rs, _ =>
    have hdr : dateOf r = d := hd r (List.mem_cons_self r rs)
    refine ⟨hist.filter (fun x => dateOf x != dateOf r) ++ r :: rs, rfl, ?_, ?_, ?_, ?_⟩
    · intro x hx hxd
      rcases List.mem_append.mp hx with h | h
      · have h2 := (List.mem_filter.mp h).2
        rw [bne_iff_ne] at h2
        exact absurd (hxd.trans hdr.symm) h2
      · exact h
    · intro x hx
      exact List.mem_append.mpr (Or.inr hx)
    · intro x hx hxd
      refine List.mem_append.mpr (Or.inl (List.mem_filter.mpr ⟨hx, ?_⟩))
      rw [bne_iff_ne, hdr]
      exact hxd
    · intro x hx
      rcases List.mem_append.mp hx with h | h
      · have h2 := List.mem_filter.mp h
        have h3 := h2.2
        rw [bne_iff_ne, hdr] at h3
        exact Or.inr ⟨h2.1, h3⟩
      · exact Or.inl h

/-- Witness for C1 at a concrete store and re-ingestion. -/
theorem upsert_by_date_full_replace_witness :
    ∃ out, save_data_to_file Prod.fst c1Rows (some c1Hist) = some out ∧
      (∀ x ∈ out, Prod.fst x = (⟨2024, 3, 2⟩ : Date) → x ∈ c1Rows) ∧
      (∀ x ∈ c1Rows, x ∈ out) ∧
      (∀ x ∈ c1Hist, Prod.fst x ≠ (⟨2024, 3, 2⟩ : Date) → x ∈ out) ∧
      (∀ x ∈ out, x ∈ c1Rows ∨ (x ∈ c1Hist ∧ Prod.fst x ≠ (⟨2024, 3, 2⟩ : Date))) :=
  upsert_by_date_full_replace Prod.fst c1Hist c1Rows ⟨2024, 3, 2⟩ (by decide)
    (by decide)

/-- C2: when the report's month key differs from the current wall-clock
month key, `calculate_and_update_monthly_overdue` returns the loaded state
unmodified and writes nothing back to the persisted monthly file. -/
theorem monthly_update_noop_for_other_month (loaded : MonthlyData)
    (daily : List DailyRow) (reportDate today : Date)
    (h : monthKey reportDate ≠ monthKey today) :
    calculate_and_update_monthly_overdue loaded daily reportDate today =
      (loaded, none) := by
  simp [calculate_and_update_monthly_overdue, h]

/-- Witness for C2: a February report processed in March leaves the state
alone. -/
theorem monthly_update_noop_for_other_month_witness :
    calculate_and_update_monthly_overdue c2Loaded c2Daily ⟨2024, 2, 10⟩ ⟨2024, 3, 1⟩ =
      (c2Loaded, none) :=
  monthly_update_noop_for_other_month c2Loaded c2Daily ⟨2024, 2, 10⟩ ⟨2024, 3, 1⟩
    (by decide)

/-- C5: whenever the report text contains a header matching the fixed
pattern `Отчет ОКК (\d{2}\.\d{2}\.\d{4})` whose digits form a real date,
`parse_and_process_report` returns exactly that header date (the conclusion
does not mention `today`: the fallback to the current date is never taken),
and the parsed staff rows carry that date. -/
theorem parse_returns_header_date (text : List Char) (today : Date)
    (d m y : Nat) (dt : Date)
    (hh : findHeader text = some (d, m, y))
    (hv : mkDate d m y = some dt) :
    parse_and_process_report text today =
      some (buildStaff (extractStaff text) dt, dt) := by
  unfold parse_and_process_report reportDateOf
  simp only [hh, hv]

/-- Witness for C5: a report dated 01.03.2024 parsed on a different current
date yields the header date. -/
theorem parse_returns_header_date_witness :
    parse_and_process_report c5Text ⟨2025, 1, 15⟩ =
      some (buildStaff (extractStaff c5Text) ⟨2024, 3, 1⟩, ⟨2024, 3, 1⟩) :=
  parse_returns_header_date c5Text ⟨2025, 1, 15⟩ 1 3 2024 ⟨2024, 3, 1⟩ (by decide)
    (by decide)

/-- One unfolding of the fetch loop. -/
theorem fetchLoop_succ (pa : Nat → Nat → Option PageResponse)
    (fuel page total : Nat) (acc : List Nat) (calls : Nat) :
    fetchLoop pa (fuel + 1) page total acc calls =
      if page ≤ total then
        match api_call_with_backoff (pa page) 0 5 with
        | none => some (acc, calls + 1)
        | some r =>
          if r.success then
            if r.totalPageCount ≤ page then some (acc ++ r.tasks, calls + 1)
            else fetchLoop pa fuel (page + 1) r.totalPageCount (acc ++ r.tasks)
              (calls + 1)
          else some ([], calls + 1)
      else some (acc, calls) := rfl

/-- C3 counterexample: against a server whose page 1 succeeds (reporting a
total of 3 pages) and whose page 2 fails on all 5 retry attempts,
`fetch_retailcrm_tasks` returns the task list assembled from page 1 alone —
a partial dataset is returned instead of the failure aborting the fetch. -/
theorem fetch_returns_partial_dataset :
    api_call_with_backoff (c3PageAttempts 2) 0 5 = none ∧
      fetch_retailcrm_tasks c3PageAttempts 10 = some ([100, 101], 2) :=
  ⟨rfl, rfl⟩

/-- When all attempts of a page fail, the retry wrapper raises
(returns `none`). -/
theorem api_call_none_of_attempts_fail {α : Type} (attempts : Nat → Option α) :
    ∀ remaining start, (∀ i, i < remaining → attempts (start + i) = none) →
      api_call_with_backoff attempts start remaining = none := by
  intro remaining
  induction remaining with
  | zero => intro start _; rfl
  | succ n ih =>
    intro start h
    have h0 : attempts start = none := by
      have hx := h 0 (Nat.succ_pos n)
      simpa using hx
    unfold api_call_with_backoff
    rw [h0]
    exact ih (start + 1) (fun i hi => by
      have hx := h (i + 1) (by omega)
      rwa [show start + (i + 1) = start + 1 + i by omega] at hx)

/-- Loop lemma for the amended C3: when the `d` pages before page `k`
succeed, each keeping pagination going, and page `k`'s request fails after
its retries, the loop appends exactly those pages' tasks and stops at page
`k`. -/
theorem c3_loop_prefix (pa : Nat → Nat → Option PageResponse)
    (resp : Nat → PageResponse) (k : Nat)
    (hsucc : ∀ p, 1 ≤ p → p < k →
      api_call_with_backoff (pa p) 0 5 = some (resp p))
    (hs : ∀ p, 1 ≤ p → p < k → (resp p).success = true)
    (hcont : ∀ p, 1 ≤ p → p < k → p < (resp p).totalPageCount)
    (hfailw : api_call_with_backoff (pa k) 0 5 = none) :
    ∀ d, d < k → ∀ total acc calls, k - d ≤ total →
      fetchLoop pa (d + 1) (k - d) total acc calls =
        some (acc ++ pagesFrom resp d (k - d), calls + (d + 1)) := by
  intro d
  induction d with
  | zero =>
    intro _ total acc calls htot
    rw [Nat.sub_zero] at htot ⊢
    rw [fetchLoop_succ, if_pos htot, hfailw]
    simp [pagesFrom]
  | succ d ih =>
    intro hdk total acc calls htot
    have hpage1 : 1 ≤ k - (d + 1) := by omega
    have hpagek : k - (d + 1) < k := by omega
    have hct := hcont _ hpage1 hpagek
    have hpp : k - (d + 1) + 1 = k - d := by omega
    rw [fetchLoop_succ, if_pos htot, hsucc _ hpage1 hpagek]
    dsimp only
    rw [if_pos (hs _ hpage1 hpagek),
      if_neg (by omega : ¬ (resp (k - (d + 1))).totalPageCount ≤ k - (d + 1)),
      hpp,
      ih (by omega) ((resp (k - (d + 1))).totalPageCount)
        (acc ++ (resp (k - (d + 1))).tasks) (calls + 1) (by omega)]
    simp only [Option.some.injEq, Prod.mk.injEq, pagesFrom, hpp]
    constructor
    · simp [List.append_assoc]
    · omega

/-- C3 (amended): for every page `k` of the fetch, if pages `1, …, k - 1`
succeed (each keeping pagination going by reporting more pages ahead) and
page `k`'s 5 retry attempts are all exhausted, the loop catches the raised
error, stops paginating, and `fetch_retailcrm_tasks` returns the task list
accumulated from the pages before the failing page — a partial dataset —
after exactly `k` page requests. -/
theorem fetch_partial_after_retries_exhausted
    (pa : Nat → Nat → Option PageResponse) (resp : Nat → PageResponse)
    (k : Nat) (hk : 1 ≤ k)
    (hsucc : ∀ p, 1 ≤ p → p < k →
      api_call_with_backoff (pa p) 0 5 = some (resp p))
    (hs : ∀ p, 1 ≤ p → p < k → (resp p).success = true)
    (hcont : ∀ p, 1 ≤ p → p < k → p < (resp p).totalPageCount)
    (hfail : ∀ i, i < 5 → pa k i = none) :
    fetch_retailcrm_tasks pa k = some (pagesFrom resp (k - 1) 1, k) := by
  have hfailw : api_call_with_backoff (pa k) 0 5 = none :=
    api_call_none_of_attempts_fail (pa k) 5 0 (fun i hi => by
      have hx := hfail i hi
      simpa using hx)
  have h := c3_loop_prefix pa resp k hsucc hs hcont hfailw (k - 1) (by omega)
    1 [] 0 (by omega)
  rw [show k - (k - 1) = 1 by omega] at h
  rw [show k - 1 + 1 = k by omega] at h
  unfold fetch_retailcrm_tasks
  rw [h]
  simp

/-- Witness for the amended C3 at a concrete server: page 1 succeeds
reporting 2 pages, page 2 fails all 5 attempts, and the fetch returns
exactly page 1's tasks after 2 page requests. -/
theorem fetch_partial_after_retries_exhausted_witness :
    fetch_retailcrm_tasks c3wPageAttempts 2 = some ([7], 2) := by
  have h := fetch_partial_after_retries_exhausted c3wPageAttempts
    (fun _ => ⟨true, [7], 2⟩) 2 (by omega)
    (fun p h1 h2 => by
      have hp : p = 1 := by omega
      subst hp
      rfl)
    (fun p h1 h2 => rfl)
    (fun p h1 h2 => by
      have hp : p = 1 := by omega
      subst hp
      decide)
    (fun i _ => rfl)
  simpa [pagesFrom] using h

/-- Against the pathological server the loop state always has
`page = total`, and the body then moves to `page + 1 = total + 1`: no
amount of fuel completes the loop. -/
theorem c4_loop_never_ends :
    ∀ fuel page acc calls,
      fetchLoop c4PageAttempts fuel page page acc calls = none := by
  intro fuel
  induction fuel with
  | zero => intro page acc calls; rfl
  | succ n ih =>
    intro page acc calls
    have hca : api_call_with_backoff (c4PageAttempts page) 0 5 =
        some ⟨true, [], page + 1⟩ := rfl
    rw [fetchLoop_succ, if_pos (le_refl page), hca]
    simp only [if_true, if_neg (by omega : ¬ page + 1 ≤ page)]
    exact ih (page + 1) (acc ++ []) (calls + 1)

/-- C4 counterexample: for the concrete response sequence in which the
reported `totalPageCount` grows by one on every page, the fetch loop never
terminates — `fetch_retailcrm_tasks` completes for no amount of fuel, so in
particular it does not stay within any page-request bound. -/
theorem fetch_diverges_on_growing_page_count :
    ¬ ∃ fuel res, fetch_retailcrm_tasks c4PageAttempts fuel = some res := by
  rintro ⟨fuel, res, h⟩
  unfold fetch_retailcrm_tasks at h
  rw [c4_loop_never_ends fuel 1 [] 0] at h
  exact Option.noConfusion h

/-- Bound for the fetch loop when every reported page count is at most
`T`. -/
theorem c4_loop_bounded (pa : Nat → Nat → Option PageResponse) (T : Nat)
    (hb : ∀ p r, api_call_with_backoff (pa p) 0 5 = some r →
      r.totalPageCount ≤ T) :
    ∀ fuel page total acc calls, page ≤ total → total ≤ T →
      T + 1 ≤ fuel + page →
      ∃ res, fetchLoop pa fuel page total acc calls = some res ∧
        res.2 ≤ calls + (T + 1 - page) := by
  intro fuel
  induction fuel with
  | zero =>
    intro page total acc calls hpt htT hf
    omega
  | succ n ih =>
    intro page total acc calls hpt htT hf
    rw [fetchLoop_succ, if_pos hpt]
    cases hca : api_call_with_backoff (pa page) 0 5 with
    | none =>
      exact ⟨(acc, calls + 1), rfl, by omega⟩
    | some r =>
      dsimp only
      have hrT : r.totalPageCount ≤ T := hb page r hca
      by_cases hsucc : r.success
      · rw [if_pos hsucc]
        by_cases hstop : r.totalPageCount ≤ page
        · rw [if_pos hstop]
          exact ⟨(acc ++ r.tasks, calls + 1), rfl, by omega⟩
        · rw [if_neg hstop]
          obtain ⟨res, hres, hcnt⟩ := ih (page + 1) r.totalPageCount
            (acc ++ r.tasks) (calls + 1) (by omega) hrT (by omega)
          exact ⟨res, hres, by omega⟩
      · rw [if_neg hsucc]
        exact ⟨([], calls + 1), rfl, by omega⟩

/-- C4 (amended): whenever the server's reported `totalPageCount` values
are bounded by some `T ≥ 1` (in particular when the count is constant),
`fetch_retailcrm_tasks` terminates — fuel `T + 1` completes the loop — and
issues at most `T` page requests. (The unamended claim fails: when the
reported count always exceeds the current page the loop never terminates,
see the counterexample.) -/
theorem fetch_terminates_with_bounded_page_count
    (pa : Nat → Nat → Option PageResponse) (T : Nat) (hT : 1 ≤ T)
    (hb : ∀ p r, api_call_with_backoff (pa p) 0 5 = some r →
      r.totalPageCount ≤ T) :
    ∃ res, fetch_retailcrm_tasks pa (T + 1) = some res ∧ res.2 ≤ T := by
  obtain ⟨res, hres, hcnt⟩ :=
    c4_loop_bounded pa T hb (T + 1) 1 1 [] 0 (le_refl 1) hT (by omega)
  exact ⟨res, hres, by omega⟩

/-- Witness for the amended C4: a server constantly reporting 2 pages is
fetched completely within 3 fuel and at most 2 page requests. -/
theorem fetch_terminates_with_bounded_page_count_witness :
    ∃ res, fetch_retailcrm_tasks c4wPageAttempts 3 = some res ∧ res.2 ≤ 2 :=
  fetch_terminates_with_bounded_page_count c4wPageAttempts 2 (by omega)
    (fun p r h => by
      have h2 : some (⟨true, [5], 2⟩ : PageResponse) = some r := h
      injection h2 with h3
      rw [← h3])

/-- Unfolding of `save_data_to_file` on a non-empty dataframe and an
existing store. -/
theorem save_cons {α : Type} (dateOf : α → Date) (r : α) (rs : List α)
    (hist : List α) :
    save_data_to_file dateOf (r :: rs) (some hist) =
      some (hist.filter (fun x => dateOf x != dateOf r) ++ r :: rs) := rfl

/-- Filtering a duplicate-free list for one of its members yields exactly
that member. -/
theorem filter_beq_singleton_of_nodup (n : String) :
    ∀ l : List String, l.Nodup → n ∈ l → l.filter (fun x => x == n) = [n] := by
  intro l
  induction l with
  | nil => intro _ h; cases h
  | cons a t ih =>
    intro hnd hmem
    rw [List.nodup_cons] at hnd
    rcases List.mem_cons.mp hmem with rfl | hmt
    · rw [List.filter_cons_of_pos (by simp)]
      have ht : t.filter (fun x => x == n) = [] := by
        rw [List.filter_eq_nil_iff]
        intro x hx
        simp only [beq_iff_eq]
        exact fun h => hnd.1 (h ▸ hx)
      rw [ht]
    · have hne : a ≠ n := fun h => hnd.1 (h ▸ hmt)
      rw [List.filter_cons_of_neg (by simp [hne])]
      exact ih hnd.2 hmt

/-- A name with at least one staff-line match is among the deduplicated
names. -/
theorem mem_dedup_of_occ (n : String) (ms : List (String × Nat × Nat))
    (h : 1 ≤ occurrences n ms) : n ∈ (ms.map Prod.fst).dedup := by
  unfold occurrences at h
  have hne : ms.filter (fun m => m.1 == n) ≠ [] := by
    intro he
    rw [he] at h
    simp at h
  obtain ⟨x, hx⟩ := List.exists_mem_of_ne_nil _ hne
  have h2 := List.mem_filter.mp hx
  have h3 : x.1 = n := by
    have := h2.2
    rwa [beq_iff_eq] at this
  rw [List.mem_dedup]
  exact List.mem_map.mpr ⟨x, h2.1, h3⟩

/-- C6: for every report text in which the same employee name matches the
staff-line pattern (here: at least twice), the persisted staff store
contains exactly one row keyed by (report date, employee), and that row
carries the sum of all matched assigned values and the sum of all matched
completed values — regardless of what the history file held before. -/
theorem staff_duplicate_mentions_summed (text : List Char)
    (hist : List StaffRow) (d : Date) (n : String)
    (hocc : 2 ≤ occurrences n (extractStaff text)) :
    ∃ out,
      save_data_to_file StaffRow.date (buildStaff (extractStaff text) d)
          (some hist) = some out ∧
      out.filter (fun r => r.date == d && r.name == n) =
        [⟨d, n, sumPosted n (extractStaff text), sumCompleted n (extractStaff text),
          (pctRaw (sumCompleted n (extractStaff text))
            (sumPosted n (extractStaff text))).fillna0⟩] := by
  set ms := extractStaff text with hms
  set rowFn : String → StaffRow := fun nm =>
    ⟨d, nm, sumPosted nm ms, sumCompleted nm ms,
      (pctRaw (sumCompleted nm ms) (sumPosted nm ms)).fillna0⟩ with hrow
  have hn : n ∈ (ms.map Prod.fst).dedup := mem_dedup_of_occ n ms (by omega)
  have hnodup : ((ms.map Prod.fst).dedup).Nodup := List.nodup_dedup _
  cases hL : (ms.map Prod.fst).dedup with
  | nil => rw [hL] at hn; cases hn
  | cons x xs =>
    rw [hL] at hn hnodup
    have hbuild : buildStaff ms d = rowFn x :: xs.map rowFn := by
      unfold buildStaff
      rw [hL, List.map_cons, hrow]
    refine ⟨_, by rw [hbuild]; exact save_cons StaffRow.date (rowFn x) (xs.map rowFn) hist, ?_⟩
    have hdx : StaffRow.date (rowFn x) = d := rfl
    rw [List.filter_append]
    have hpart1 : (hist.filter fun h0 => StaffRow.date h0 != StaffRow.date (rowFn x)).filter
        (fun r => r.date == d && r.name == n) = [] := by
      rw [List.filter_eq_nil_iff]
      intro a ha
      have h2 := (List.mem_filter.mp ha).2
      rw [hdx, bne_iff_ne] at h2
      simp [h2]
    have hpart2 : (rowFn x :: xs.map rowFn).filter
        (fun r => r.date == d && r.name == n) = [rowFn n] := by
      rw [← List.map_cons, List.filter_map]
      have hcongr : (x :: xs).filter ((fun r => r.date == d && r.name == n) ∘ rowFn) =
          (x :: xs).filter (fun nm => nm == n) := by
        apply List.filter_congr
        intro a _
        simp [hrow, Function.comp]
      rw [hcongr, filter_beq_singleton_of_nodup n (x :: xs) hnodup hn,
        List.map_singleton]
    rw [hpart1, hpart2]
    simp [hrow]

/-- Witness for C6: Ivan mentioned as 3/2 and then 2/2 persists as the
single row (5, 4). -/
theorem staff_duplicate_mentions_summed_witness :
    ∃ out,
      save_data_to_file StaffRow.date (buildStaff (extractStaff c6Text) ⟨2024, 3, 5⟩)
          (some []) = some out ∧
      out.filter (fun r => r.date == (⟨2024, 3, 5⟩ : Date) && r.name == "Ivan") =
        [⟨⟨2024, 3, 5⟩, "Ivan", sumPosted "Ivan" (extractStaff c6Text),
          sumCompleted "Ivan" (extractStaff c6Text),
          (pctRaw (sumCompleted "Ivan" (extractStaff c6Text))
            (sumPosted "Ivan" (extractStaff c6Text))).fillna0⟩] :=
  staff_duplicate_mentions_summed c6Text [] ⟨2024, 3, 5⟩ "Ivan" (by decide)

/-- C7 counterexample: a staff line with zero assigned and two completed
tasks produces a row whose derived completion-percentage field is
+infinity, not 0 — `fillna(0)` replaces only the NaN arising from `0/0`. -/
theorem pct_infinite_on_zero_posted :
    buildStaff (extractStaff c7Text) ⟨2024, 3, 5⟩ =
      [⟨⟨2024, 3, 5⟩, "Ivan", 0, 2, PctVal.inf⟩] ∧
      PctVal.inf ≠ PctVal.num 0 := by
  exact ⟨by decide, by decide⟩

/-- C7 (amended): for every parsed staff row, the derived
completion-percentage field equals completed/assigned×100 rounded to 2
decimals when assigned is positive, equals 0 when assigned and completed
are both 0 (the NaN from 0/0 is replaced by `fillna(0)`), equals +infinity
when assigned = 0 but completed > 0, and is never NaN. -/
theorem pct_field_cases (ms : List (String × Nat × Nat)) (d : Date)
    (r : StaffRow) (hr : r ∈ buildStaff ms d) :
    (0 < r.posted →
      r.pct = PctVal.num (round2 ((r.completed : ℚ) / (r.posted : ℚ) * 100))) ∧
    (r.posted = 0 → r.completed = 0 → r.pct = PctVal.num 0) ∧
    (r.posted = 0 → 0 < r.completed → r.pct = PctVal.inf) ∧
    r.pct ≠ PctVal.nan := by
  obtain ⟨nm, _, rfl⟩ := List.mem_map.mp hr
  refine ⟨?_, ?_, ?_, ?_⟩
  · intro hp
    have hne : sumPosted nm ms ≠ 0 := by
      simp only at hp
      omega
    simp [pctRaw, hne, PctVal.fillna0]
  · intro hp hc
    simp only at hp hc
    simp [pctRaw, hp, hc, PctVal.fillna0]
  · intro hp hc
    simp only at hp hc
    have hne : sumCompleted nm ms ≠ 0 := by omega
    simp [pctRaw, hp, hne, PctVal.fillna0]
  · by_cases hp : sumPosted nm ms = 0
    · by_cases hc : sumCompleted nm ms = 0 <;>
        simp [pctRaw, hp, hc, PctVal.fillna0]
    · simp [pctRaw, hp, PctVal.fillna0]

/-- Witness for the amended C7: a 4-assigned / 2-completed row carries the
rounded 50 percent value. -/
theorem pct_field_cases_witness :
    c7wRow.pct =
      PctVal.num (round2 ((c7wRow.completed : ℚ) / (c7wRow.posted : ℚ) * 100)) :=
  (pct_field_cases [("Ivan", 4, 2)] ⟨2024, 3, 6⟩ c7wRow
    (List.mem_singleton.mpr rfl)).1 (by decide)

/-- C8: the overdue classifier never counts a completed task whose
completion timestamp is at or before its due-datetime, and never counts an
incomplete task whose due-datetime is at or after the evaluation time: such
a task is classified not-overdue, and dropping it from the task list
anywhere leaves the per-manager counts unchanged. -/
theorem overdue_classifier_never_counts_safe_tasks (now : Stamp) (t : CrmTask)
    (h : safeTask now t) :
    countsOverdue now t = false ∧
    ∀ pre post resolve,
      process_tasks_for_chart_6 (pre ++ t :: post) resolve now =
        process_tasks_for_chart_6 (pre ++ post) resolve now := by
  have hco : countsOverdue now t = false := by
    rcases h with ⟨hc, ds, due, cs, ca, hds, hdue, hcs, hca, hle⟩ |
      ⟨hc, ds, due, hds, hdue, hle⟩
    · have hdec : decide (due.key < ca.key) = false :=
        decide_eq_false_iff_not.mpr (Nat.not_lt.mpr hle)
      unfold countsOverdue
      rw [hds, hc]
      simp only [hdue, hcs, hca, hdec, Bool.not_true, Bool.false_eq_true, if_false]
      repeat' split
      all_goals rfl
    · have hdec : decide (due.key < now.key) = false :=
        decide_eq_false_iff_not.mpr (Nat.not_lt.mpr hle)
      unfold countsOverdue
      rw [hds, hc]
      simp only [hdue, hdec, Bool.not_false, if_true]
      repeat' split
      all_goals rfl
  refine ⟨hco, ?_⟩
  intro pre post resolve
  unfold process_tasks_for_chart_6
  rw [List.foldl_append, List.foldl_append, List.foldl_cons, hco]
  simp

/-- Witness for C8: an incomplete task due in 2030, evaluated in 2024, is
not counted and contributes nothing. -/
theorem overdue_classifier_never_counts_safe_tasks_witness :
    countsOverdue c8Now c8Task = false ∧
      process_tasks_for_chart_6 [c8Task] (fun _ => "Manager") c8Now =
        process_tasks_for_chart_6 [] (fun _ => "Manager") c8Now := by
  have h := overdue_classifier_never_counts_safe_tasks c8Now c8Task
    (Or.inr ⟨rfl, "2030-01-01 10:00", ⟨2030, 1, 1, 10, 0, 0⟩, rfl, by decide,
      by decide⟩)
  exact ⟨h.1, h.2 [] [] (fun _ => "Manager")⟩

/-- C9: `find_latest_chart_files` walks the six category patterns in
declaration order (so the output order never depends on which file was
generated most recently), contributes at most one file per pattern, and
where `pickLatest` yields a file that file is a matching directory entry
whose modification time is maximal among the pattern's matches, while a
pattern yields nothing exactly when no entry matches it. -/
theorem artifact_selection_latest_per_category (files : List FileEntry) :
    find_latest_chart_files files =
      chartPatterns.filterMap (fun pat => pickLatest pat files) ∧
    (∀ pat f, pickLatest pat files = some f →
      f ∈ files ∧ globMatch pat f.name = true ∧
        ∀ g ∈ files, globMatch pat g.name = true → g.mtime ≤ f.mtime) ∧
    (∀ pat, pickLatest pat files = none →
      ∀ g ∈ files, globMatch pat g.name = false) := by
  refine ⟨rfl, ?_, ?_⟩
  · intro pat f hf
    unfold pickLatest at hf
    obtain ⟨rest, hsort⟩ : ∃ rest,
        (files.filter (fun x => globMatch pat x.name)).insertionSort mtimeGe =
          f :: rest := by
      cases hms : (files.filter (fun x => globMatch pat x.name)).insertionSort
          mtimeGe with
      | nil => rw [hms] at hf; cases hf
      | cons a tl =>
        rw [hms] at hf
        cases hf
        exact ⟨tl, rfl⟩
    have hperm := List.perm_insertionSort mtimeGe
      (files.filter (fun x => globMatch pat x.name))
    have hfmem : f ∈ files.filter (fun x => globMatch pat x.name) := by
      have hin : f ∈ (files.filter (fun x => globMatch pat x.name)).insertionSort
          mtimeGe := by
        rw [hsort]
        exact List.mem_cons_self _ _
      exact hperm.mem_iff.mp hin
    have hf2 := List.mem_filter.mp hfmem
    refine ⟨hf2.1, hf2.2, ?_⟩
    intro g hg hgm
    have hgmem : g ∈ files.filter (fun x => globMatch pat x.name) :=
      List.mem_filter.mpr ⟨hg, hgm⟩
    have hgs : g ∈ (files.filter (fun x => globMatch pat x.name)).insertionSort
        mtimeGe := hperm.mem_iff.mpr hgmem
    rw [hsort] at hgs
    rcases List.mem_cons.mp hgs with rfl | hgrest
    · exact le_refl _
    · have hsorted := List.sorted_insertionSort mtimeGe
        (files.filter (fun x => globMatch pat x.name))
      rw [hsort] at hsorted
      exact List.rel_of_sorted_cons hsorted g hgrest
  · intro pat hnone g hg
    unfold pickLatest at hnone
    rw [List.head?_eq_none_iff] at hnone
    have hnil : files.filter (fun x => globMatch pat x.name) = [] := by
      have hperm := List.perm_insertionSort mtimeGe
        (files.filter (fun x => globMatch pat x.name))
      rw [hnone] at hperm
      exact hperm.symm.eq_nil
    by_contra hgm
    have hmem : g ∈ files.filter (fun x => globMatch pat x.name) :=
      List.mem_filter.mpr ⟨hg, by simpa using hgm⟩
    rw [hnil] at hmem
    cases hmem

/-- Witness for C9 at the spec's example listing {cat1@5, cat1@9, cat2@7}:
the picked category-1 file is a matching entry at least as recent as the
other category-1 file. -/
theorem artifact_selection_latest_per_category_witness :
    c9B ∈ c9Files ∧ globMatch ("dashboard_data_1_", ".html") c9B.name = true ∧
      c9A.mtime ≤ c9B.mtime := by
  have h := (artifact_selection_latest_per_category c9Files).2.1
    ("dashboard_data_1_", ".html") c9B (by decide)
  exact ⟨h.1, h.2.1, h.2.2 c9A (by decide) (by decide)⟩

/-- Every entry of a bumped counter map is at least 1 when every entry of
the original map is. -/
theorem bump_entries_pos :
    ∀ (m : List (String × Nat)) (k : String),
      (∀ p ∈ m, 1 ≤ p.2) → ∀ p ∈ bump m k, 1 ≤ p.2 := by
  intro m
  induction m with
  | nil =>
    intro k _ p hp
    simp only [bump, List.mem_singleton] at hp
    subst hp
    exact le_refl 1
  | cons a rest ih =>
    intro k hm p hp
    obtain ⟨k', v⟩ := a
    simp only [bump] at hp
    by_cases hk : k' = k
    · rw [if_pos hk] at hp
      rcases List.mem_cons.mp hp with rfl | hrest
      · simp
      · exact hm _ (List.mem_cons_of_mem _ hrest)
    · rw [if_neg hk] at hp
      rcases List.mem_cons.mp hp with rfl | hrest
      · exact hm _ (List.mem_cons_self _ _)
      · exact ih k (fun q hq => hm q (List.mem_cons_of_mem _ hq)) p hrest

/-- The classifier fold keeps every counter at least 1. -/
theorem process_entries_pos_aux (resolve : Nat → String) (now : Stamp) :
    ∀ (tasks : List CrmTask) (m : List (String × Nat)),
      (∀ p ∈ m, 1 ≤ p.2) →
      ∀ p ∈ tasks.foldl
        (fun acc task =>
          if countsOverdue now task then bump acc (managerOf resolve task)
          else acc) m,
        1 ≤ p.2 := by
  intro tasks
  induction tasks with
  | nil =>
    intro m hm p hp
    rw [List.foldl_nil] at hp
    exact hm p hp
  | cons t ts ih =>
    intro m hm p hp
    rw [List.foldl_cons] at hp
    by_cases hc : countsOverdue now t = true
    · rw [if_pos hc] at hp
      exact ih _ (bump_entries_pos m _ hm) p hp
    · rw [if_neg hc] at hp
      exact ih _ hm p hp

/-- C10: every value in the mapping returned by `process_tasks_for_chart_6`
is at least 1 — a manager appears as a key only after at least one of their
tasks was classified overdue, so the output never contains zero-count
entries. -/
theorem overdue_counts_positive (tasks : List CrmTask) (resolve : Nat → String)
    (now : Stamp) (k : String) (v : Nat)
    (h : (k, v) ∈ process_tasks_for_chart_6 tasks resolve now) : 1 ≤ v := by
  unfold process_tasks_for_chart_6 at h
  have hv := process_entries_pos_aux resolve now tasks []
    (by intro p hp; cases hp) (k, v) h
  simpa using hv

/-- Witness for C10: one overdue task yields the entry ("Manager", 1),
whose count is positive. -/
theorem overdue_counts_positive_witness :
    (("Manager", 1) ∈
        process_tasks_for_chart_6 [c10Task] (fun _ => "Manager") c10Now) ∧
      1 ≤ 1 :=
  ⟨by decide, overdue_counts_positive [c10Task] (fun _ => "Manager") c10Now
    "Manager" 1 (by decide)⟩

end Dashboards
